import Mathlib

/-!
# Verification of the srddl field/offset engine

Shallow embedding of the srddl repository (Python) in Lean 4 and proofs
about it.  Sources embedded here:

* `srddl/core/offset.py` — `_Offset` / `Offset` / `Size` bit arithmetic;
* `srddl/data.py` — the `Data` buffer wrapper (`pack_into`, `unpack_from`,
  the read-only probe in `__init__`);
* `srddl/fields/core.py` — `IntField`, `ByteArrayField`, `BitField`,
  `BitMaskField` decode/encode and `BitFieldBoundValue._size`;
* `srddl/core/fields.py` — the `_MetaAbstractField.__new__` `__get__`
  wrapper (field lifecycle guard) and `BoundValue.__eq__` / `__lt__`
  (ordering, completed by `functools.total_ordering`).

Python integers are modelled as `Int` (or `Nat` where the source only ever
handles non-negative values), buffers as `List Nat` of byte values, and
fallible code returns `Except SrddlErr`.
-/

/-! ## Offsets (`srddl/core/offset.py`)

`_Offset.__init__` normalizes `(byte, bit)` with Python floor division:
`self.byte, self.bit = self.byte + self.bit // 8, self.bit % 8`.
Python `//` and `%` with a positive divisor coincide with `Int.ediv` and
`Int.emod`.  The source distinguishes the classes `Offset` and `Size` only
by `rounded()`; we use one structure and two rounding functions. -/

structure Offset where
  byte : Int
  bit : Int
deriving DecidableEq, Repr

/-- `_Offset.__init__(byte, bit)`: normalization carrying excess bits. -/
def Offset.ofRaw (byte bit : Int) : Offset :=
  { byte := byte + bit / 8, bit := bit % 8 }

/-- `_Offset.__add__` with another `_Offset`: `bit >> 3` and `bit &= 0b111`
on a Python int are floor division and remainder by 8. -/
def Offset.addOff (a b : Offset) : Offset :=
  Offset.ofRaw (a.byte + b.byte + (a.bit + b.bit) / 8) ((a.bit + b.bit) % 8)

/-- `_Offset.__add__` with a plain integer. -/
def Offset.addInt (a : Offset) (d : Int) : Offset :=
  Offset.ofRaw (a.byte + d) a.bit

/-- `_Offset.__sub__` with another `_Offset` (manual borrow). -/
def Offset.subOff (a b : Offset) : Offset :=
  if a.bit - b.bit < 0 then
    Offset.ofRaw (a.byte - b.byte - 1) (a.bit - b.bit + 8)
  else
    Offset.ofRaw (a.byte - b.byte) (a.bit - b.bit)

/-- `_Offset.__sub__` with a plain integer. -/
def Offset.subInt (a : Offset) (d : Int) : Offset :=
  Offset.ofRaw (a.byte - d) a.bit

/-- `_Offset.aligned`. -/
def Offset.aligned (a : Offset) : Bool :=
  a.bit == 0

/-- `Offset.rounded`: byte floor. -/
def Offset.rounded (a : Offset) : Int :=
  a.byte

/-- `Size.rounded`: byte ceiling (`self.byte + (1 if self.bit else 0)`). -/
def Offset.sizeRounded (a : Offset) : Int :=
  a.byte + (if a.bit ≠ 0 then 1 else 0)

/-! ## Errors

The exception classes live in `srddl/exceptions.py`, which is not among the
sources; the constructors mirror the classes referenced from the sources
(`FieldNotReadyError`, `NotABoundValueError`, `NoFieldDataError`,
`BifFieldSizeError` — spelled that way at `srddl/fields/core.py:94`),
Python's own `TypeError` and `struct.error`, and the bare
`Exception(msg)` raised by `Data.pack_into`.  `readOnlyError` is modelled
from the spec's error list (§7); no code in the sources raises it. -/

inductive SrddlErr
  | fieldNotReady
  | notABoundValue
  | noFieldData
  | bifFieldSize
  | readOnlyError
  | typeError
  | structError
  | genericExc (msg : String)
deriving DecidableEq, Repr

/-! ## Fixed-width integer codec (`struct` formats built by `IntField._sig`)

`_sig` produces `<`/`>`/`!` plus one of `bhiq` (signed) or `BHIQ`
(unsigned) for widths 1/2/4/8.  The byte serialization is two's
complement in the chosen byte order. -/

inductive ByteOrder
  | little
  | big
  | network
deriving DecidableEq, Repr

/-- Little-endian bytes of `n`, exactly `w` bytes. -/
def bytesLE : Nat → Nat → List Nat
  | 0, _ => []
  | w + 1, n => n % 256 :: bytesLE w (n / 256)

/-- The number a little-endian byte list denotes. -/
def natOfLE : List Nat → Nat
  | [] => 0
  | b :: bs => b + 256 * natOfLE bs

/-- `<` keeps little-endian order; `>` and `!` (network) are big-endian. -/
def orderBytes (e : ByteOrder) (l : List Nat) : List Nat :=
  match e with
  | ByteOrder.little => l
  | ByteOrder.big => l.reverse
  | ByteOrder.network => l.reverse

/-- `struct.pack` of an integer: two's-complement bytes in the requested
byte order.  (For a representable value, signed and unsigned formats of
the same width produce the same bytes.) -/
def structPackInt (w : Nat) (e : ByteOrder) (v : Int) : List Nat :=
  orderBytes e (bytesLE w (v % (2 : Int) ^ (8 * w)).toNat)

/-- `struct.unpack` of an integer: read the bytes in the requested order
and, for a signed format, subtract `2^(8w)` from values with the sign bit
set. -/
def structUnpackInt (w : Nat) (signed : Bool) (e : ByteOrder) (bs : List Nat) : Int :=
  let n := natOfLE (orderBytes e bs)
  if signed ∧ 2 ^ (8 * w - 1) ≤ n then (n : Int) - (2 : Int) ^ (8 * w) else (n : Int)

/-- The range `struct.pack` accepts for a width-`w` format: two's-complement
range when signed, `[0, 2^(8w))` when unsigned. -/
def intRepr (w : Nat) (signed : Bool) (v : Int) : Bool :=
  if signed then
    decide (-((2 : Int) ^ (8 * w - 1)) ≤ v ∧ v < (2 : Int) ^ (8 * w - 1))
  else
    decide (0 ≤ v ∧ v < (2 : Int) ^ (8 * w))

/-! ## The `Data` buffer wrapper (`srddl/data.py`) -/

/-- A Python buffer object: its bytes and whether it supports item
assignment (`bytearray` or a writable `mmap` do; `bytes` or a read-only
`mmap` do not). -/
structure PyBuffer where
  bytes : List Nat
  writable : Bool
deriving DecidableEq, Repr

structure Data where
  buf : PyBuffer
  ro : Bool
deriving DecidableEq, Repr

/-- `Data.__init__`: the probe `self.buf[0] = self.buf[0]` succeeds exactly
when the buffer is non-empty (reading `buf[0]` of an empty buffer raises)
and supports item assignment; writing a byte to itself leaves the bytes
unchanged.  Any failure is swallowed by the bare `except` and forces
`ro = True`, ignoring the caller's `ro` argument. -/
def Data.init (buf : PyBuffer) (ro : Bool) : Data :=
  { buf := buf, ro := if buf.writable ∧ buf.bytes ≠ [] then ro else true }

/-- Overwrite `bs.length` bytes of `l` starting at byte `off`. -/
def writeAt (l : List Nat) (off : Nat) (bs : List Nat) : List Nat :=
  l.take off ++ bs ++ l.drop (off + bs.length)

/-- Read `w` bytes of `l` starting at byte `off`. -/
def readAt (l : List Nat) (off w : Nat) : List Nat :=
  (l.drop off).take w

/-- `Data.pack_into`: a write on a read-only buffer raises the bare
`Exception('fu')` (not a `ReadOnlyError`); `struct.pack_into` then fails
unless the buffer holds `offset + size` bytes. -/
def Data.pack_into (d : Data) (off : Nat) (bs : List Nat) : Except SrddlErr Data :=
  if d.ro then Except.error (SrddlErr.genericExc "fu")
  else if off + bs.length ≤ d.buf.bytes.length then
    Except.ok { d with buf := { d.buf with bytes := writeAt d.buf.bytes off bs } }
  else Except.error SrddlErr.structError

/-- `Data.unpack_from` restricted to the byte span a field format denotes. -/
def Data.unpack_from (d : Data) (off w : Nat) : Except SrddlErr (List Nat) :=
  if off + w ≤ d.buf.bytes.length then Except.ok (readAt d.buf.bytes off w)
  else Except.error SrddlErr.structError

/-- A Python value passed as the `offset` argument of `struct.unpack_from`:
the argument must be usable as an index, so passing a bound method — as
`BitField.encode` does with `offset.rounded` at `srddl/fields/core.py:119`
— raises `TypeError`. -/
inductive PyIndex
  | int (n : Nat)
  | boundMethod
deriving DecidableEq, Repr

def Data.unpack_from_py (d : Data) (idx : PyIndex) (w : Nat) :
    Except SrddlErr (List Nat) :=
  match idx with
  | PyIndex.int off => d.unpack_from off w
  | PyIndex.boundMethod => Except.error SrddlErr.typeError

/-! ## Symbolic values and Python dicts -/

/-- A symbolic `Value` entry of a field's `values` table (its raw integer
and short name; the long description plays no role in decode/encode). -/
structure Value where
  value : Int
  name : String
deriving DecidableEq, Repr

/-- One `d[k] = v` on a Python dict represented as an insertion-ordered
association list: an existing key keeps its position and gets the new
value; a new key is appended. -/
def pyDictInsert {α β : Type} [DecidableEq α] (d : List (α × β)) (k : α) (v : β) :
    List (α × β) :=
  if d.any (fun p => decide (p.1 = k)) then
    d.map (fun p => if p.1 = k then (k, v) else p)
  else d ++ [(k, v)]

/-- Build a dict by inserting the pairs in order. -/
def pyDictOf {α β : Type} [DecidableEq α] (l : List (α × β)) : List (α × β) :=
  l.foldl (fun d p => pyDictInsert d p.1 p.2) []

/-- `d.get(k)`. -/
def pyLookup {α β : Type} [DecidableEq α] (d : List (α × β)) (k : α) : Option β :=
  (d.find? (fun p => decide (p.1 = k))).map Prod.snd

/-! ## `IntField` (`srddl/fields/core.py`) -/

structure IntField where
  size : Nat
  signed : Bool
  endianess : ByteOrder
  values : List Value
deriving DecidableEq, Repr

/-- `IntField.__init__`: `self._values[it['value']] = it` over the `values`
argument. -/
def IntField.valuesDict (f : IntField) : List (Int × Value) :=
  pyDictOf (f.values.map (fun v => (v.value, v)))

/-- `IntField.encode`: pack the integer with the field's width and
endianness at `offset.byte`.  (`struct.pack_into` also rejects values
outside the format's range — see `intRepr`; the theorems below restrict to
representable values.) -/
def IntField.encode (f : IntField) (d : Data) (offByte : Nat) (v : Int) :
    Except SrddlErr Data :=
  d.pack_into offByte (structPackInt f.size f.endianess v)

/-- `IntField.decode`: unpack a width/signedness/endianness integer at
`offset.byte`, then `self._values.get(res, res)`. -/
def IntField.decode (f : IntField) (d : Data) (offByte : Nat) :
    Except SrddlErr (Value ⊕ Int) :=
  (d.unpack_from offByte f.size).map (fun bs =>
    let res := structUnpackInt f.size f.signed f.endianess bs
    match pyLookup f.valuesDict res with
    | some v => Sum.inl v
    | none => Sum.inr res)

/-- `BoundValue._value`: a `Value` returned by `decode` is copied onto the
bound value, which then reports the `Value`'s raw integer; a plain integer
is reported as is. -/
def boundValueValue : Value ⊕ Int → Int
  | Sum.inl v => v.value
  | Sum.inr n => n

/-! ## `BitField` (`srddl/fields/core.py`) -/

/-- `IntField.Size.values()`: the enum values `BYTE=1, INT8=1, INT16=2,
INT32=4, INT64=8`. -/
def IntFieldSizeValues : List Int := [1, 1, 2, 4, 8]

/-- `BitFieldBoundValue._size`: the width in bits as a `Size`; when the
enclosing span `size + Size(bit=offset.bit)` rounds to a byte count
outside `IntField.Size.values()` the source returns
`se.BifFieldSizeError(size)` — it returns the exception object instead of
a `Size` (note: `return`, not `raise`). -/
def BitFieldBoundValue.sizeE (w : Nat) (off : Offset) : Except SrddlErr Offset :=
  let size := Offset.ofRaw 0 (w : Int)
  if (size.addOff (Offset.ofRaw 0 off.bit)).sizeRounded ∈ IntFieldSizeValues then
    Except.ok size
  else
    Except.error SrddlErr.bifFieldSize

/-- `BitField._mask`: `(1 << (size.byte * 8 + size.bit)) - 1`. -/
def BitField.maskOf (size : Offset) : Nat :=
  (1 <<< (size.byte.toNat * 8 + size.bit.toNat)) - 1

/-- `BitField.decode`: unpack the little-endian unsigned integer of the
enclosing byte count at `offset.rounded()`, mask the field's span and
shift it down.  (When `_size` yields the error object instead of a `Size`,
the arithmetic on it in the source raises; here the error propagates
through the bind.) -/
def BitField.decode (w : Nat) (d : Data) (off : Offset) : Except SrddlErr Nat := do
  let size ← BitFieldBoundValue.sizeE w off
  let encl := (size.addOff (Offset.ofRaw 0 off.bit)).sizeRounded.toNat
  let bs ← d.unpack_from_py (PyIndex.int off.rounded.toNat) encl
  let i := natOfLE bs
  let mask := BitField.maskOf size <<< off.bit.toNat
  pure ((i &&& mask) >>> off.bit.toNat)

/-- `BitField.encode`: the read-modify-write cycle.  Line 119 of
`srddl/fields/core.py` passes `offset.rounded` — the bound method object,
without the call parentheses that `decode` (line 111) and the final
`pack_into` (line 123) use — as the offset argument of `unpack_from`, so
the read raises `TypeError` before anything is written.  The tail models
the rest of the body; `i & ~mask` on an `encl`-byte unsigned value is
`i &&& (allOnes ^^^ mask)`. -/
def BitField.encode (w : Nat) (d : Data) (off : Offset) (v : Nat) :
    Except SrddlErr Data := do
  let size ← BitFieldBoundValue.sizeE w off
  let encl := (size.addOff (Offset.ofRaw 0 off.bit)).sizeRounded.toNat
  let bs ← d.unpack_from_py PyIndex.boundMethod encl
  let i := natOfLE bs
  let mask := BitField.maskOf size <<< off.bit.toNat
  let res := (i &&& (((1 <<< (encl * 8)) - 1) ^^^ mask)) |||
    ((v &&& BitField.maskOf size) <<< off.bit.toNat)
  d.pack_into off.rounded.toNat (bytesLE encl res)

/-! ## `ByteArrayField` (`srddl/fields/core.py`) -/

/-- A Python fill-character argument for `bytes.ljust`. -/
inductive PyFill
  | pyStr (s : String)
  | pyByte (b : Nat)
deriving DecidableEq, Repr

/-- `bytes.ljust`: the fill character must be a single byte; a `str` fill —
as `ByteArrayField.encode` passes with `'\x00'` at
`srddl/fields/core.py:83` — raises `TypeError` during argument parsing,
whatever the widths are. -/
def bytesLjust (bs : List Nat) (width : Nat) (fill : PyFill) :
    Except SrddlErr (List Nat) :=
  match fill with
  | PyFill.pyStr _ => Except.error SrddlErr.typeError
  | PyFill.pyByte c =>
      Except.ok
        (if bs.length < width then bs ++ List.replicate (width - bs.length) c else bs)

/-- `ByteArrayField.encode`:
`value = value.ljust(size.byte, '\x00')[:size.byte]` then pack `'{}s'`. -/
def ByteArrayField.encode (size : Nat) (d : Data) (offByte : Nat)
    (value : List Nat) : Except SrddlErr Data := do
  let padded ← bytesLjust value size (PyFill.pyStr "\x00")
  d.pack_into offByte (padded.take size)

/-! ## `BitMaskField` (`srddl/fields/core.py`)

`BitMaskField` reads are unsigned in every configuration exercised here, so
the decoded integer and the table's raw values are `Nat`. -/

/-- A symbolic flag entry of a `BitMaskField`'s table. -/
structure BMValue where
  value : Nat
  name : String
deriving DecidableEq, Repr

def BitMaskField.valuesDict (values : List BMValue) : List (Nat × BMValue) :=
  pyDictOf (values.map (fun v => (v.value, v)))

/-- `BitMaskField.decode` on the decoded integer `nb`: if `nb` is itself a
table key, `super().decode` already returned that `Value` and the result
is that single entry; otherwise walk the table in insertion order,
appending every entry with `val_num & nb` non-zero and OR-ing its raw
value into `mask`; if `mask != nb`, append `nb ^ mask` unnamed; an empty
result falls back to `[nb]`. -/
def BitMaskField.decode (values : List BMValue) (nb : Nat) :
    List (BMValue ⊕ Nat) :=
  match pyLookup (BitMaskField.valuesDict values) nb with
  | some v => [Sum.inl v]
  | none =>
    let p := (BitMaskField.valuesDict values).foldl
      (fun (acc : List (BMValue ⊕ Nat) × Nat) q =>
        if q.1 &&& nb ≠ 0 then (acc.1 ++ [Sum.inl q.2], acc.2 ||| q.1) else acc)
      ([], 0)
    let res := if p.2 ≠ nb then p.1 ++ [Sum.inr (nb ^^^ p.2)] else p.1
    if res = [] then [Sum.inr nb] else res

/-- Claim C3 as stated: include each table entry whose raw value is a
non-zero subset of `nb` (`entry AND nb` equals the entry's value), and,
when the OR of the included entries does not cover all bits of `nb`,
append the uncovered leftover bits of `nb` as one unnamed entry. -/
def decodeClaimC3 (values : List BMValue) (nb : Nat) : List (BMValue ⊕ Nat) :=
  let included := values.filter (fun v =>
    decide (v.value &&& nb = v.value) && decide (v.value &&& nb ≠ 0))
  let mask := included.foldl (fun m v => m ||| v.value) 0
  included.map Sum.inl ++ (if mask ≠ nb then [Sum.inr (nb ^^^ mask)] else [])

/-- The amended description of `BitMaskField.decode` (when `nb` is not a
table key): include the entries with a non-zero bitwise AND with `nb` —
not only subsets — in table order; the unnamed leftover is `nb` XOR the
accumulated mask when they differ; when nothing was appended at all the
result falls back to the single unnamed entry `nb`. -/
def decodeBitMaskSpec (values : List BMValue) (nb : Nat) : List (BMValue ⊕ Nat) :=
  match pyLookup (BitMaskField.valuesDict values) nb with
  | some v => [Sum.inl v]
  | none =>
    let included := (BitMaskField.valuesDict values).filter
      (fun q => decide (q.1 &&& nb ≠ 0))
    let mask := included.foldl (fun m q => m ||| q.1) 0
    let base := included.map (fun q => Sum.inl q.2) ++
      (if mask ≠ nb then [Sum.inr (nb ^^^ mask)] else [])
    if base = [] then [Sum.inr nb] else base

/-! ## Field lifecycle guard (`srddl/core/fields.py`) -/

/-- `FieldInitStatus = enum(KO=0, INIT=1, OK=2)`. -/
inductive FieldInitStatus
  | KO
  | INIT
  | OK
deriving DecidableEq, Repr

/-- What the wrapped `__get__` may return: `None`, a `BoundValue`, a nested
`Struct`, or anything else (the guarded error case). -/
inductive GetResult
  | nothing
  | boundValue (bv : Int)
  | struct (s : Int)
  | other
deriving DecidableEq, Repr

/-- The `__get__` wrapper installed by `_MetaAbstractField.__new__`
(`srddl/core/fields.py:57-69`): a read while the lifecycle status is not
`OK` raises `FieldNotReadyError`; once `OK`, the underlying getter's
result is returned unless it is neither absent, a `BoundValue`, nor a
`Struct` (then `NotABoundValueError`). -/
def MetaAbstractField.wrappedGet (st : FieldInitStatus) (res : GetResult) :
    Except SrddlErr GetResult :=
  if st ≠ FieldInitStatus.OK then Except.error SrddlErr.fieldNotReady
  else
    match res with
    | GetResult.other => Except.error SrddlErr.notABoundValue
    | r => Except.ok r

/-! ## `BoundValue` ordering (`srddl/core/fields.py`)

`BoundValue.__eq__` and `__lt__` compare the decoded values (`self['value']`
resp. `self.value`, both of which report the cached decode result for an
integer-typed field); `functools.total_ordering` derives the remaining
operators from them: `__le__` is lt-or-eq, `__gt__` is not-lt-and-not-eq,
`__ge__` is not-lt. -/

structure BoundValueInt where
  value : Int
deriving DecidableEq, Repr

/-- `BoundValue.__eq__` between two bound values. -/
def BoundValueInt.eqOp (a b : BoundValueInt) : Bool := a.value == b.value

/-- `BoundValue.__lt__` between two bound values. -/
def BoundValueInt.ltOp (a b : BoundValueInt) : Bool := decide (a.value < b.value)

/-- `__le__` as `functools.total_ordering` derives it from `__lt__`/`__eq__`. -/
def BoundValueInt.leOp (a b : BoundValueInt) : Bool :=
  BoundValueInt.ltOp a b || BoundValueInt.eqOp a b

/-- `__gt__` as `functools.total_ordering` derives it. -/
def BoundValueInt.gtOp (a b : BoundValueInt) : Bool :=
  !BoundValueInt.ltOp a b && !BoundValueInt.eqOp a b

/-- `__ge__` as `functools.total_ordering` derives it. -/
def BoundValueInt.geOp (a b : BoundValueInt) : Bool := !BoundValueInt.ltOp a b

/-! ## Theorems -/
theorem Offset.ofRaw_bit_nonneg (b bi : Int) : 0 ≤ (Offset.ofRaw b bi).bit :=
  Int.emod_nonneg bi (by decide)

theorem Offset.ofRaw_bit_lt (b bi : Int) : (Offset.ofRaw b bi).bit < 8 :=
  Int.emod_lt_of_pos bi (by decide)

theorem Offset.ofRaw_of_normal (b bi : Int) (h0 : 0 ≤ bi) (h8 : bi < 8) :
    Offset.ofRaw b bi = Offset.mk b bi := by
  unfold Offset.ofRaw
  rw [Offset.mk.injEq]
  rw [Int.ediv_eq_zero_of_lt h0 h8, Int.emod_eq_of_lt h0 h8]
  omega

/-- C5: for every valid (byte, bit) pair with bit in [0,8) and every integer
or Offset delta, `(Offset(byte,bit) + delta) - delta` equals
`Offset(byte,bit)`; and after every construction, addition, or subtraction
the bit component of the resulting Offset/Size lies in [0,8). -/
theorem C5_offset_roundtrip_normalized (byte bit d db dbit rb rbit : Int)
    (a b : Offset) (n : Int)
    (h0 : 0 ≤ bit) (h8 : bit < 8) (hd0 : 0 ≤ dbit) (hd8 : dbit < 8) :
    ((Offset.mk byte bit).addInt d).subInt d = Offset.mk byte bit ∧
    ((Offset.mk byte bit).addOff (Offset.mk db dbit)).subOff (Offset.mk db dbit)
      = Offset.mk byte bit ∧
    (0 ≤ (Offset.ofRaw rb rbit).bit ∧ (Offset.ofRaw rb rbit).bit < 8) ∧
    (0 ≤ (a.addOff b).bit ∧ (a.addOff b).bit < 8) ∧
    (0 ≤ (a.subOff b).bit ∧ (a.subOff b).bit < 8) ∧
    (0 ≤ (a.addInt n).bit ∧ (a.addInt n).bit < 8) ∧
    (0 ≤ (a.subInt n).bit ∧ (a.subInt n).bit < 8) := by
  refine ⟨?_, ?_, ?_, ?_, ?_, ?_, ?_⟩
  · simp only [Offset.addInt, Offset.subInt, Offset.ofRaw]
    rw [Offset.mk.injEq]
    omega
  · simp only [Offset.addOff, Offset.subOff, Offset.ofRaw]
    split_ifs <;> (rw [Offset.mk.injEq]; omega)
  · simp only [Offset.ofRaw]
    omega
  · simp only [Offset.addOff, Offset.ofRaw]
    omega
  · simp only [Offset.subOff, Offset.ofRaw]
    split_ifs <;> dsimp only <;> omega
  · simp only [Offset.addInt, Offset.ofRaw]
    omega
  · simp only [Offset.subInt, Offset.ofRaw]
    omega

/-- Witness for C5 at byte 3, bit 5, integer delta -2, offset delta (1, 7). -/
theorem C5_offset_roundtrip_normalized_witness :
    ((Offset.mk 3 5).addInt (-2)).subInt (-2) = Offset.mk 3 5 ∧
    ((Offset.mk 3 5).addOff (Offset.mk 1 7)).subOff (Offset.mk 1 7)
      = Offset.mk 3 5 ∧
    (0 ≤ (Offset.ofRaw (-3) (-13)).bit ∧ (Offset.ofRaw (-3) (-13)).bit < 8) ∧
    (0 ≤ ((Offset.mk 2 9).addOff (Offset.mk 0 6)).bit ∧
      ((Offset.mk 2 9).addOff (Offset.mk 0 6)).bit < 8) ∧
    (0 ≤ ((Offset.mk 2 9).subOff (Offset.mk 0 6)).bit ∧
      ((Offset.mk 2 9).subOff (Offset.mk 0 6)).bit < 8) ∧
    (0 ≤ ((Offset.mk 2 9).addInt 4).bit ∧ ((Offset.mk 2 9).addInt 4).bit < 8) ∧
    (0 ≤ ((Offset.mk 2 9).subInt 4).bit ∧ ((Offset.mk 2 9).subInt 4).bit < 8) :=
  C5_offset_roundtrip_normalized 3 5 (-2) 1 7 (-3) (-13)
    (Offset.mk 2 9) (Offset.mk 0 6) 4
    (by decide) (by decide) (by decide) (by decide)

/-- C10: constructing `Data(buf, ro=False)` over a buffer that does not
support item assignment silently yields a read-only `Data` — every
subsequent `pack_into` fails — regardless of the caller's `ro` argument;
the constructor probes by writing the buffer's first byte to itself. -/
theorem C10_data_probe_readonly (bytes : List Nat) (ro : Bool) (off : Nat)
    (bs : List Nat) :
    (Data.init (PyBuffer.mk bytes false) ro).ro = true ∧
    (Data.init (PyBuffer.mk bytes false) ro).pack_into off bs =
      Except.error (SrddlErr.genericExc "fu") := by
  constructor
  · simp [Data.init]
  · simp [Data.init, Data.pack_into]

/-- C4 counterexample: a 1-byte unsigned little-endian `IntField.encode` of
value 5 against a read-only buffer raises the bare `Exception('fu')`,
which is not a `ReadOnlyError`. -/
theorem C4_readonly_encode_counterexample :
    IntField.encode (IntField.mk 1 false ByteOrder.little [])
      (Data.mk (PyBuffer.mk [7] true) true) 0 5 =
      Except.error (SrddlErr.genericExc "fu") ∧
    SrddlErr.genericExc "fu" ≠ SrddlErr.readOnlyError :=
  ⟨rfl, by decide⟩

/-- C4 amended: every write (any `pack_into`, hence `IntField.encode`)
attempted against a read-only buffer fails with the bare generic
`Exception('fu')` — not a `ReadOnlyError` — and no modified buffer is
produced by the attempt. -/
theorem C4_readonly_encode_amended (f : IntField) (d : Data) (off : Nat)
    (v : Int) (bs : List Nat) (hro : d.ro = true) :
    d.pack_into off bs = Except.error (SrddlErr.genericExc "fu") ∧
    IntField.encode f d off v = Except.error (SrddlErr.genericExc "fu") := by
  constructor
  · simp [Data.pack_into, hro]
  · simp [IntField.encode, Data.pack_into, hro]

/-- Witness for C4 amended on a read-only one-byte buffer. -/
theorem C4_readonly_encode_amended_witness :
    (Data.mk (PyBuffer.mk [7] true) true).pack_into 0 [1] =
      Except.error (SrddlErr.genericExc "fu") ∧
    IntField.encode (IntField.mk 1 false ByteOrder.little [])
      (Data.mk (PyBuffer.mk [7] true) true) 0 1 =
      Except.error (SrddlErr.genericExc "fu") :=
  C4_readonly_encode_amended (IntField.mk 1 false ByteOrder.little [])
    (Data.mk (PyBuffer.mk [7] true) true) 0 1 [1] rfl

/-- C6: reading a field's value while its lifecycle status is below `OK`
(`KO` or `INIT`) fails with `FieldNotReadyError`; once the status is `OK`,
a read whose underlying getter yields the bound value raises no error. -/
theorem C6_fieldNotReady_guard (st : FieldInitStatus) (res : GetResult)
    (bv : Int) :
    ((st = FieldInitStatus.KO ∨ st = FieldInitStatus.INIT) →
      MetaAbstractField.wrappedGet st res = Except.error SrddlErr.fieldNotReady) ∧
    (st = FieldInitStatus.OK → res = GetResult.boundValue bv →
      MetaAbstractField.wrappedGet st res = Except.ok res) := by
  constructor
  · intro h
    rcases h with h | h <;> subst h <;> cases res <;> rfl
  · intro h1 h2
    subst h1
    subst h2
    rfl

/-- Witness for C6: status `INIT` rejects the read, status `OK` serves it. -/
theorem C6_fieldNotReady_guard_witness :
    MetaAbstractField.wrappedGet FieldInitStatus.INIT (GetResult.boundValue 7) =
      Except.error SrddlErr.fieldNotReady ∧
    MetaAbstractField.wrappedGet FieldInitStatus.OK (GetResult.boundValue 7) =
      Except.ok (GetResult.boundValue 7) :=
  ⟨(C6_fieldNotReady_guard FieldInitStatus.INIT (GetResult.boundValue 7) 7).1
      (Or.inr rfl),
   (C6_fieldNotReady_guard FieldInitStatus.OK (GetResult.boundValue 7) 7).2
      rfl rfl⟩

/-- C9: the comparison operators of integer-typed bound values — `__eq__`,
`__lt__` from the source and `__le__`, `__gt__`, `__ge__` as
`functools.total_ordering` derives them — are exactly the total order of
the decoded values. -/
theorem C9_boundValue_total_order (a b : BoundValueInt) :
    (BoundValueInt.eqOp a b = true ↔ a.value = b.value) ∧
    (BoundValueInt.ltOp a b = true ↔ a.value < b.value) ∧
    (BoundValueInt.leOp a b = true ↔ a.value ≤ b.value) ∧
    (BoundValueInt.gtOp a b = true ↔ b.value < a.value) ∧
    (BoundValueInt.geOp a b = true ↔ b.value ≤ a.value) := by
  refine ⟨?_, ?_, ?_, ?_, ?_⟩ <;>
    simp only [BoundValueInt.eqOp, BoundValueInt.ltOp, BoundValueInt.leOp,
      BoundValueInt.gtOp, BoundValueInt.geOp, Bool.or_eq_true, Bool.and_eq_true,
      Bool.not_eq_true', beq_iff_eq, beq_eq_false_iff_ne, decide_eq_true_eq,
      decide_eq_false_iff_not] <;>
    omega

/-- C7: for every `BitField` whose starting bit offset (in `[0,8)`) plus
bit width exceeds 64 bits, querying the bound value's size yields the
`BifFieldSizeError` value, not a normal `Size`. -/
theorem C7_bitfield_size_error (w : Nat) (off : Offset)
    (h0 : 0 ≤ off.bit) (h8 : off.bit < 8) (hover : 64 < off.bit + (w : Int)) :
    BitFieldBoundValue.sizeE w off = Except.error SrddlErr.bifFieldSize := by
  unfold BitFieldBoundValue.sizeE
  rw [if_neg]
  simp only [Offset.addOff, Offset.ofRaw, Offset.sizeRounded, IntFieldSizeValues,
    List.mem_cons, List.not_mem_nil, or_false]
  push_neg
  split_ifs <;> omega

/-- Witness for C7 at width 65 and aligned offset. -/
theorem C7_bitfield_size_error_witness :
    BitFieldBoundValue.sizeE 65 (Offset.mk 0 0) =
      Except.error SrddlErr.bifFieldSize :=
  C7_bitfield_size_error 65 (Offset.mk 0 0) (by decide) (by decide) (by decide)

/-- C2 (code bug): `BitField.encode` of the 3-bit value 5 at bit offset 6
over the writable buffer `[0xC0, 0x00]` raises `TypeError` before writing
anything, because `srddl/fields/core.py:119` passes the bound method
`offset.rounded` instead of `offset.rounded()` as the unpack offset; the
claimed encode-then-decode round trip never happens. -/
theorem C2_bitField_encode_typeError :
    BitField.encode 3 (Data.mk (PyBuffer.mk [192, 0] true) false)
      (Offset.mk 0 6) 5 = Except.error SrddlErr.typeError := rfl

/-- C8 (code bug): `ByteArrayField.encode` of `b'\x01\x02'` into a 5-byte
field raises `TypeError` for every input, because
`srddl/fields/core.py:83` passes the `str` fill `'\x00'` to
`bytes.ljust`; the claimed pad-or-truncate write never happens. -/
theorem C8_byteArrayField_encode_typeError :
    ByteArrayField.encode 5 (Data.mk (PyBuffer.mk [0, 0, 0, 0, 0, 0] true) false)
      0 [1, 2] = Except.error SrddlErr.typeError := rfl

theorem length_bytesLE (w n : Nat) : (bytesLE w n).length = w := by
  induction w generalizing n with
  | zero => rfl
  | succ w ih => simp [bytesLE, ih]

theorem natOfLE_bytesLE (w n : Nat) (h : n < 2 ^ (8 * w)) :
    natOfLE (bytesLE w n) = n := by
  induction w generalizing n with
  | zero =>
    have h1 : (2 : Nat) ^ (8 * 0) = 1 := by norm_num
    simp only [bytesLE, natOfLE]
    omega
  | succ w ih =>
    have hp : (2 : Nat) ^ (8 * (w + 1)) = 2 ^ (8 * w) * 256 := by
      rw [Nat.mul_succ, pow_add]
      norm_num
    simp only [bytesLE, natOfLE]
    rw [ih (n / 256) (by omega)]
    omega

theorem orderBytes_orderBytes (e : ByteOrder) (l : List Nat) :
    orderBytes e (orderBytes e l) = l := by
  cases e <;> simp [orderBytes]

theorem length_writeAt (l : List Nat) (off : Nat) (bs : List Nat)
    (h : off + bs.length ≤ l.length) :
    (writeAt l off bs).length = l.length := by
  simp [writeAt]
  omega

theorem readAt_writeAt (l : List Nat) (off : Nat) (bs : List Nat)
    (h : off + bs.length ≤ l.length) :
    readAt (writeAt l off bs) off bs.length = bs := by
  induction off generalizing l with
  | zero =>
    simp only [writeAt, readAt, List.take_zero, List.nil_append, List.drop_zero,
      Nat.zero_add]
    exact List.take_left bs _
  | succ off ih =>
    cases l with
    | nil => simp at h
    | cons a l =>
      simp only [List.length_cons] at h
      simp only [writeAt, readAt, List.take_succ_cons, List.drop_succ_cons,
        List.cons_append]
      rw [show off + 1 + bs.length = (off + bs.length) + 1 by omega,
        List.drop_succ_cons]
      exact ih l (by omega)

theorem structUnpack_structPack (w : Nat) (signed : Bool) (e : ByteOrder)
    (v : Int) (hw : 1 ≤ w) (hv : intRepr w signed v = true) :
    structUnpackInt w signed e (structPackInt w e v) = v := by
  have hMpos : (0 : Int) < (2 : Int) ^ (8 * w) := by positivity
  have hM2pos : (0 : Int) < (2 : Int) ^ (8 * w - 1) := by positivity
  have h1 : 8 * w - 1 + 1 = 8 * w := by omega
  have hsplit : (2 : Int) ^ (8 * w) = 2 * (2 : Int) ^ (8 * w - 1) := by
    conv_lhs => rw [← h1]
    rw [pow_succ]
    ring
  have hm0 : 0 ≤ v % (2 : Int) ^ (8 * w) := Int.emod_nonneg v (by positivity)
  have hm1 : v % (2 : Int) ^ (8 * w) < (2 : Int) ^ (8 * w) :=
    Int.emod_lt_of_pos v hMpos
  have hcast : (((v % (2 : Int) ^ (8 * w)).toNat : Nat) : Int)
      = v % (2 : Int) ^ (8 * w) := Int.toNat_of_nonneg hm0
  have hcastM : (((2 : Nat) ^ (8 * w) : Nat) : Int) = (2 : Int) ^ (8 * w) := by
    push_cast
    rfl
  have hcastM2 : (((2 : Nat) ^ (8 * w - 1) : Nat) : Int)
      = (2 : Int) ^ (8 * w - 1) := by
    push_cast
    rfl
  have hNlt : (v % (2 : Int) ^ (8 * w)).toNat < 2 ^ (8 * w) := by omega
  simp only [structUnpackInt, structPackInt]
  rw [orderBytes_orderBytes, natOfLE_bytesLE w _ hNlt]
  cases signed with
  | false =>
    simp [intRepr] at hv
    have hvm : v % (2 : Int) ^ (8 * w) = v := Int.emod_eq_of_lt hv.1 hv.2
    rw [if_neg (by simp)]
    rw [hcast, hvm]
  | true =>
    simp [intRepr] at hv
    by_cases hneg : v < 0
    · have hvm : v % (2 : Int) ^ (8 * w) = v + (2 : Int) ^ (8 * w) := by
        have h3 : 0 ≤ v + (2 : Int) ^ (8 * w) := by omega
        have h2 : v + (2 : Int) ^ (8 * w) < (2 : Int) ^ (8 * w) := by omega
        calc v % (2 : Int) ^ (8 * w)
            = (v + (2 : Int) ^ (8 * w) * 1) % (2 : Int) ^ (8 * w) := by
              rw [Int.add_mul_emod_self_left]
          _ = v + (2 : Int) ^ (8 * w) := by
              rw [mul_one]
              exact Int.emod_eq_of_lt h3 h2
      have hside : 2 ^ (8 * w - 1) ≤ (v % (2 : Int) ^ (8 * w)).toNat := by omega
      rw [if_pos ⟨rfl, hside⟩]
      rw [hcast, hvm]
      ring
    · have hvm : v % (2 : Int) ^ (8 * w) = v :=
        Int.emod_eq_of_lt (le_of_not_lt hneg) (by omega)
      have hside : ¬ 2 ^ (8 * w - 1) ≤ (v % (2 : Int) ^ (8 * w)).toNat := by
        omega
      rw [if_neg (fun hc => hside hc.2)]
      rw [hcast, hvm]

theorem pyDictInsert_prop {α β : Type} [DecidableEq α] (P : α × β → Prop)
    (d : List (α × β)) (k : α) (v : β) (hd : ∀ p ∈ d, P p) (hkv : P (k, v)) :
    ∀ p ∈ pyDictInsert d k v, P p := by
  unfold pyDictInsert
  split_ifs
  · intro p hp
    rcases List.mem_map.mp hp with ⟨q, hq, hpq⟩
    by_cases h : q.1 = k
    · rw [if_pos h] at hpq
      rw [← hpq]
      exact hkv
    · rw [if_neg h] at hpq
      rw [← hpq]
      exact hd q hq
  · intro p hp
    rcases List.mem_append.mp hp with h | h
    · exact hd p h
    · rw [List.mem_singleton.mp h]
      exact hkv

theorem pyDictFoldl_prop {α β : Type} [DecidableEq α] (P : α × β → Prop) :
    ∀ l d : List (α × β), (∀ p ∈ l, P p) → (∀ p ∈ d, P p) →
      ∀ p ∈ l.foldl (fun acc q => pyDictInsert acc q.1 q.2) d, P p := by
  intro l
  induction l with
  | nil =>
    intro d _ hd
    simpa using hd
  | cons a l ih =>
    intro d hl hd
    simp only [List.foldl_cons]
    exact ih _ (fun p hp => hl p (List.mem_cons_of_mem a hp))
      (pyDictInsert_prop P d a.1 a.2 hd
        (by simpa using hl a (List.mem_cons_self a l)))

theorem pyDictOf_prop {α β : Type} [DecidableEq α] (P : α × β → Prop)
    (l : List (α × β)) (hl : ∀ p ∈ l, P p) :
    ∀ p ∈ pyDictOf l, P p :=
  pyDictFoldl_prop P l [] hl (by simp)

theorem pyLookup_mem {α β : Type} [DecidableEq α] (d : List (α × β)) (k : α)
    (v : β) (h : pyLookup d k = some v) : (k, v) ∈ d := by
  unfold pyLookup at h
  cases hf : d.find? (fun p => decide (p.1 = k)) with
  | none =>
    rw [hf] at h
    simp at h
  | some q =>
    rw [hf] at h
    simp only [Option.map_some'] at h
    have h2 : q.2 = v := Option.some.inj h
    have hmem := List.mem_of_find?_eq_some hf
    have hpred := List.find?_some hf
    simp only [decide_eq_true_eq] at hpred
    have hq : q = (k, v) := by
      rcases q with ⟨q1, q2⟩
      simp only at hpred h2
      rw [hpred, h2]
    rw [← hq]
    exact hmem

theorem valuesDict_lookup_value (f : IntField) (k : Int) (v : Value)
    (h : pyLookup f.valuesDict k = some v) : v.value = k := by
  have hmem := pyLookup_mem _ _ _ h
  have hall := pyDictOf_prop (fun p => p.2.value = p.1)
    (f.values.map (fun u => (u.value, u)))
    (by
      intro p hp
      rcases List.mem_map.mp hp with ⟨u, _, hpu⟩
      rw [← hpu])
  exact hall (k, v) hmem

/-- C1: for every `IntField` configuration (width 1/2/4/8, signed flag,
endianness) and every integer `v` representable in that width and
signedness, `encode(instance, offset, v)` on a writable, large-enough
buffer succeeds, and immediately reading the field's decoded value through
its `BoundValue` yields exactly `v` — also when `v` matches a symbolic
table entry, since the table maps each raw value to a `Value` carrying
that same raw value. -/
theorem C1_intField_roundtrip (f : IntField)
    (hw : f.size = 1 ∨ f.size = 2 ∨ f.size = 4 ∨ f.size = 8)
    (v : Int) (hv : intRepr f.size f.signed v = true)
    (d : Data) (off : Nat) (hro : d.ro = false)
    (hb : off + f.size ≤ d.buf.bytes.length) :
    IntField.encode f d off v =
      Except.ok (Data.mk
        (PyBuffer.mk
          (writeAt d.buf.bytes off (structPackInt f.size f.endianess v))
          d.buf.writable) d.ro) ∧
    (IntField.decode f
        (Data.mk
          (PyBuffer.mk
            (writeAt d.buf.bytes off (structPackInt f.size f.endianess v))
            d.buf.writable) d.ro) off).map boundValueValue = Except.ok v := by
  have hw1 : 1 ≤ f.size := by rcases hw with h | h | h | h <;> omega
  set pk := structPackInt f.size f.endianess v with hpk
  have hlen : pk.length = f.size := by
    rw [hpk]
    unfold structPackInt
    cases f.endianess <;> simp [orderBytes, length_bytesLE]
  constructor
  · unfold IntField.encode Data.pack_into
    rw [if_neg (by simp [hro])]
    rw [if_pos (by rw [hlen]; exact hb)]
  · unfold IntField.decode Data.unpack_from
    have hlen2 : (writeAt d.buf.bytes off pk).length = d.buf.bytes.length :=
      length_writeAt _ _ _ (by rw [hlen]; exact hb)
    rw [if_pos (show off + f.size ≤ (writeAt d.buf.bytes off pk).length by
      rw [hlen2]; exact hb)]
    have hx : readAt (writeAt d.buf.bytes off pk) off f.size = pk := by
      rw [← hlen]
      exact readAt_writeAt _ _ _ (by rw [hlen]; exact hb)
    simp only [Except.map, hx]
    rw [hpk, structUnpack_structPack f.size f.signed f.endianess v hw1 hv]
    cases hl : pyLookup f.valuesDict v with
    | none => simp [boundValueValue, hl]
    | some u =>
      have hu := valuesDict_lookup_value f v u hl
      simp [boundValueValue, hl, hu]

/-- Witness for C1: a signed big-endian 1-byte field with a symbolic table
entry for -3, encoded at offset 1 of a 2-byte writable buffer. -/
theorem C1_intField_roundtrip_witness :
    IntField.encode (IntField.mk 1 true ByteOrder.big [Value.mk (-3) "NEG3"])
      (Data.mk (PyBuffer.mk [0, 1] true) false) 1 (-3) =
      Except.ok (Data.mk
        (PyBuffer.mk (writeAt [0, 1] 1 (structPackInt 1 ByteOrder.big (-3)))
          true) false) ∧
    (IntField.decode (IntField.mk 1 true ByteOrder.big [Value.mk (-3) "NEG3"])
        (Data.mk
          (PyBuffer.mk (writeAt [0, 1] 1 (structPackInt 1 ByteOrder.big (-3)))
            true) false) 1).map boundValueValue = Except.ok (-3) :=
  C1_intField_roundtrip (IntField.mk 1 true ByteOrder.big [Value.mk (-3) "NEG3"])
    (Or.inl rfl) (-3) (by decide) (Data.mk (PyBuffer.mk [0, 1] true) false) 1
    rfl (by decide)

theorem nat_and_or_absorb_left (a b : Nat) : a &&& (a ||| b) = a :=
  Nat.eq_of_testBit_eq fun i => by
    cases h : a.testBit i <;> simp [h]

theorem nat_and_or_absorb_right (a b : Nat) : b &&& (a ||| b) = b :=
  Nat.eq_of_testBit_eq fun i => by
    cases h : b.testBit i <;> simp [h]

theorem bitmask_foldl_spec (nb : Nat) :
    ∀ (l : List (Nat × BMValue)) (acc : List (BMValue ⊕ Nat)) (m : Nat),
      l.foldl (fun (acc : List (BMValue ⊕ Nat) × Nat) q =>
          if q.1 &&& nb ≠ 0 then (acc.1 ++ [Sum.inl q.2], acc.2 ||| q.1) else acc)
        (acc, m)
      = (acc ++ (l.filter (fun q => decide (q.1 &&& nb ≠ 0))).map
            (fun q => Sum.inl q.2),
         (l.filter (fun q => decide (q.1 &&& nb ≠ 0))).foldl
            (fun m q => m ||| q.1) m) := by
  intro l
  induction l with
  | nil =>
    intro acc m
    simp
  | cons a l ih =>
    intro acc m
    simp only [List.foldl_cons, List.filter_cons]
    by_cases h : a.1 &&& nb ≠ 0
    · rw [if_pos h, ih, if_pos (decide_eq_true h)]
      simp only [List.map_cons, List.foldl_cons]
      simp [List.append_assoc]
    · rw [if_neg h, ih, if_neg (by simpa using h)]

theorem ite_append_singleton {γ : Type} (c : Prop) [Decidable c]
    (A : List γ) (x : γ) :
    (if c then A ++ [x] else A) = A ++ (if c then [x] else []) := by
  split_ifs <;> simp

/-- C3 counterexample: over the table with the single entry raw value 3 and
decoded integer 1, the source includes the entry (3 AND 1 is non-zero
though not equal to 3) and appends 1 XOR 3 = 2, whereas the claim as
stated predicts no named entry and the unnamed leftover 1, which the code
never produces. -/
theorem C3_bitMaskField_decode_counterexample :
    BitMaskField.decode [BMValue.mk 3 "V"] 1 =
      [Sum.inl (BMValue.mk 3 "V"), Sum.inr 2] ∧
    decodeClaimC3 [BMValue.mk 3 "V"] 1 = [Sum.inr 1] ∧
    Sum.inr 1 ∉ BitMaskField.decode [BMValue.mk 3 "V"] 1 := by
  refine ⟨rfl, rfl, ?_⟩
  intro hmem
  rw [show BitMaskField.decode [BMValue.mk 3 "V"] 1
      = [Sum.inl (BMValue.mk 3 "V"), Sum.inr 2] from rfl] at hmem
  simp at hmem

/-- C3 amended: for every `BitMaskField` table and decoded integer `n` that
is not itself a table key, decode returns, in table order, the entries
whose raw value has a non-zero bitwise AND with `n` (not only subsets),
followed by one unnamed entry `n XOR mask` when the OR `mask` of the
included raw values differs from `n` (falling back to the single unnamed
entry `n` when nothing was included and `mask = n`); in particular, when
`n` is the OR of the two disjoint non-zero flags forming the table, decode
returns exactly those two named entries and nothing else. -/
theorem C3_bitMaskField_decode_amended (values : List BMValue) (nb : Nat)
    (a b : BMValue) (ha : a.value ≠ 0) (hb : b.value ≠ 0)
    (hab : a.value &&& b.value = 0) :
    BitMaskField.decode values nb = decodeBitMaskSpec values nb ∧
    BitMaskField.decode [a, b] (a.value ||| b.value) =
      [Sum.inl a, Sum.inl b] := by
  have haneq : a.value ≠ b.value := by
    intro h
    rw [h, Nat.and_self] at hab
    exact hb hab
  have han : a.value &&& (a.value ||| b.value) = a.value :=
    nat_and_or_absorb_left _ _
  have hbn : b.value &&& (a.value ||| b.value) = b.value :=
    nat_and_or_absorb_right _ _
  have hna : a.value ||| b.value ≠ a.value := by
    intro h
    have h2 : b.value &&& a.value = b.value := by
      rw [← h]
      exact hbn
    have h3 : b.value = 0 := by
      calc b.value = b.value &&& a.value := h2.symm
        _ = a.value &&& b.value := Nat.and_comm _ _
        _ = 0 := hab
    exact hb h3
  have hnb : a.value ||| b.value ≠ b.value := by
    intro h
    have h2 : a.value &&& b.value = a.value := by
      rw [← h]
      exact han
    have h3 : a.value = 0 := by
      rw [hab] at h2
      exact h2.symm
    exact ha h3
  constructor
  · unfold BitMaskField.decode decodeBitMaskSpec
    cases hl : pyLookup (BitMaskField.valuesDict values) nb with
    | some v => rfl
    | none =>
      rw [bitmask_foldl_spec nb (BitMaskField.valuesDict values) [] 0]
      dsimp only
      rw [List.nil_append, ite_append_singleton]
  · have hdict : BitMaskField.valuesDict [a, b] = [(a.value, a), (b.value, b)] := by
      simp [BitMaskField.valuesDict, pyDictOf, pyDictInsert, haneq]
    have h1 : ¬ (a.value = a.value ||| b.value) := fun h => hna h.symm
    have h2 : ¬ (b.value = a.value ||| b.value) := fun h => hnb h.symm
    have hlook : pyLookup [(a.value, a), (b.value, b)] (a.value ||| b.value)
        = none := by
      simp [pyLookup, List.find?, h1, h2]
    unfold BitMaskField.decode
    rw [hdict, hlook]
    dsimp only
    simp only [List.foldl_cons, List.foldl_nil, List.nil_append]
    rw [if_pos (show a.value &&& (a.value ||| b.value) ≠ 0 by
      rw [han]; exact ha)]
    dsimp only
    rw [if_pos (show b.value &&& (a.value ||| b.value) ≠ 0 by
      rw [hbn]; exact hb)]
    dsimp only
    rw [if_neg (show ¬ ((0 ||| a.value) ||| b.value ≠ a.value ||| b.value) by
      simp)]
    simp

/-- Witness for C3 amended over the two-flag table {1: A, 2: B} with decoded
integers 5 (general description) and 3 (the two disjoint flags). -/
theorem C3_bitMaskField_decode_amended_witness :
    BitMaskField.decode [BMValue.mk 1 "A", BMValue.mk 2 "B"] 5 =
      decodeBitMaskSpec [BMValue.mk 1 "A", BMValue.mk 2 "B"] 5 ∧
    BitMaskField.decode [BMValue.mk 1 "A", BMValue.mk 2 "B"] 3 =
      [Sum.inl (BMValue.mk 1 "A"), Sum.inl (BMValue.mk 2 "B")] :=
  C3_bitMaskField_decode_amended [BMValue.mk 1 "A", BMValue.mk 2 "B"] 5
    (BMValue.mk 1 "A") (BMValue.mk 2 "B") (by decide) (by decide) (by decide)
